import Mathlib

/-!
Verification of the audio signal-conditioning pipeline and render
synchronization of the Shader_Sandbox voice-orb app.

The numeric code of src/VoiceOrbApp/hooks/useAudioLevel.ts (web
updateLevel callback, native recording-status callback), the variant in
src/unnamed/part_000, and the state interpolator of
src/VoiceOrbApp/components/ReactiveOrb.tsx are embedded shallowly over
the real numbers.  JavaScript floating point is modelled by exact real
arithmetic; Math.pow is Real.rpow.

Division needs care: Lean real division totalizes x / 0 to 0, while
JavaScript produces NaN (0 / 0) or a signed infinity (x / 0, x not 0).
Because the calibration code caps nothing, the noise floor can become
exactly 1 (calibration sample 5/6 times 1.2; the IEEE double nearest
5/6 times 1.2 is also exactly 1.0), and the gate of the web pipeline
then divides by zero.  The file therefore carries two embeddings of the
web pipeline: the exact-real one (updateLevel), in which division is
total and the published level provably stays in [0,1], and a
non-finite-aware one (updateLevelJs), in which a zero denominator
produces the marker none that propagates exactly as NaN does through
Math.pow, Math.min, the smoothing arithmetic and the snap-to-zero
comparison, and which exhibits the published NaN of the source at that
corner.
-/

namespace VoiceOrb

noncomputable section

/-- Math.max over the elements of a nonempty array, as in
Math.max(...calibrationSamples) (useAudioLevel.ts line 124; the array
has just been pushed to, so it is nonempty). -/
def maxSamples : List ℝ → ℝ
  | [] => 0
  | x :: xs => xs.foldl max x

/-- Noise gate of useAudioLevel.ts line 132:
gated = Math.max(0, rawNormalized - noiseFloor) / (1 - noiseFloor). -/
def gatedLevel (raw noiseFloor : ℝ) : ℝ :=
  max 0 (raw - noiseFloor) / (1 - noiseFloor)

/-- Curve of useAudioLevel.ts line 135: curved = Math.pow(gated, 0.7) * 2.0. -/
noncomputable def curvedLevel (raw noiseFloor : ℝ) : ℝ :=
  gatedLevel raw noiseFloor ^ (0.7 : ℝ) * 2.0

/-- Clamp of useAudioLevel.ts line 136: clampedLevel = Math.min(1, curved). -/
noncomputable def clampedLevel (raw noiseFloor : ℝ) : ℝ :=
  min 1 (curvedLevel raw noiseFloor)

/-- Asymmetric smoothing of useAudioLevel.ts lines 140-142 (also lines
216-218 of the native callback, which uses the same constants):
factor 0.3 when the new value exceeds the retained one, else 0.08. -/
def smoothStep (clamped currentSmoothed : ℝ) : ℝ :=
  currentSmoothed +
    (clamped - currentSmoothed) * (if clamped > currentSmoothed then (0.3 : ℝ) else 0.08)

/-- Per-session mutable state of the web capture path: the
calibrationSamples array, noiseFloorRef, smoothedLevelRef and the
published audioLevel React state. -/
structure WebState where
  calibSamples : List ℝ
  noiseFloor : ℝ
  smoothedLevel : ℝ
  audioLevel : ℝ

/-- State at session start: calibrationSamples = [], noiseFloorRef = 0.05
(useAudioLevel.ts line 34), smoothedLevelRef = 0, audioLevel = 0. -/
def initialWebState : WebState := ⟨[], 0.05, 0, 0⟩

/-- One invocation of the web updateLevel callback
(useAudioLevel.ts lines 109-152) on one raw sample.  The boolean is
the calibration test Date.now() - calibrationStart < calibrationDuration
of line 122: while it holds the sample is pushed and the noise floor is
re-estimated (lines 123-124) and the callback returns early; afterwards
the gate / curve / clamp / smoothing / snap-to-zero path runs
(lines 130-148). -/
noncomputable def updateLevel (calibrating : Bool) (raw : ℝ) (s : WebState) : WebState :=
  if calibrating then
    let samples := s.calibSamples ++ [raw]
    { s with calibSamples := samples, noiseFloor := maxSamples samples * 1.2 }
  else
    let clamped := clampedLevel raw s.noiseFloor
    let smoothed := smoothStep clamped s.smoothedLevel
    let finalLevel := if smoothed < 0.02 then 0 else smoothed
    { s with smoothedLevel := smoothed, audioLevel := finalLevel }

/-- A finite sequence of updateLevel invocations; each input pairs the
calibration flag with the raw sample delivered on that animation frame. -/
noncomputable def runUpdates (inputs : List (Bool × ℝ)) (s : WebState) : WebState :=
  inputs.foldl (fun t p => updateLevel p.1 p.2 t) s

/-- JavaScript division with the non-finite results kept visible:
a / 0 is NaN when a = 0 and a signed infinity otherwise, none of which
lies in [0,1]; all are collapsed to the marker none, finite quotients
to some (a / b). -/
def jsDiv (a b : ℝ) : Option ℝ :=
  if b = 0 then none else some (a / b)

/-- Web capture state with the smoothing state and the published level
allowed to be non-finite (none models the JavaScript NaN). -/
structure JsWebState where
  calibSamples : List ℝ
  noiseFloor : ℝ
  smoothedLevel : Option ℝ
  audioLevel : Option ℝ

/-- The web updateLevel callback (useAudioLevel.ts lines 109-152) with
JavaScript division semantics.  The calibration branch is as in
updateLevel (it divides nothing).  In the active branch a non-finite
gate propagates exactly as NaN does in the source: Math.pow(NaN, 0.7)
is NaN, Math.min(1, NaN) is NaN, NaN > prev is false and
prev + (NaN - prev) * 0.08 is NaN, NaN < 0.02 is false so the NaN is
published by setAudioLevel. -/
noncomputable def updateLevelJs (calibrating : Bool) (raw : ℝ) (s : JsWebState) : JsWebState :=
  if calibrating then
    let samples := s.calibSamples ++ [raw]
    { s with calibSamples := samples, noiseFloor := maxSamples samples * 1.2 }
  else
    let gated := jsDiv (max 0 (raw - s.noiseFloor)) (1 - s.noiseFloor)
    let curved := gated.map fun g => g ^ (0.7 : ℝ) * 2.0
    let clamped := curved.map fun c => min 1 c
    let smoothed :=
      match clamped, s.smoothedLevel with
      | some c, some prev => some (smoothStep c prev)
      | _, _ => none
    let finalLevel := smoothed.map fun sm => if sm < 0.02 then 0 else sm
    { s with smoothedLevel := smoothed, audioLevel := finalLevel }

/-- Curve of the variant pipeline in src/unnamed/part_000 line 183:
curved = Math.pow(gated, 0.5) * 1.0 (same gate as line 180). -/
noncomputable def altCurvedLevel (raw noiseFloor : ℝ) : ℝ :=
  gatedLevel raw noiseFloor ^ (0.5 : ℝ) * 1.0

/-- Clamp of src/unnamed/part_000 line 184. -/
noncomputable def altClampedLevel (raw noiseFloor : ℝ) : ℝ :=
  min 1 (altCurvedLevel raw noiseFloor)

/-- Smoothing of src/unnamed/part_000 lines 187-189: attack 0.08,
release 0.03. -/
def altSmoothStep (clamped currentSmoothed : ℝ) : ℝ :=
  currentSmoothed +
    (clamped - currentSmoothed) * (if clamped > currentSmoothed then (0.08 : ℝ) else 0.03)

/-- One invocation of the variant updateLevel of src/unnamed/part_000
lines 157-198 (snap-to-zero threshold 0.01, line 192). -/
noncomputable def updateLevelAlt (calibrating : Bool) (raw : ℝ) (s : WebState) : WebState :=
  if calibrating then
    let samples := s.calibSamples ++ [raw]
    { s with calibSamples := samples, noiseFloor := maxSamples samples * 1.2 }
  else
    let clamped := altClampedLevel raw s.noiseFloor
    let smoothed := altSmoothStep clamped s.smoothedLevel
    let finalLevel := if smoothed < 0.01 then 0 else smoothed
    { s with smoothedLevel := smoothed, audioLevel := finalLevel }

/-- Normalization and curve of the native recording-status callback,
useAudioLevel.ts lines 207-213: dB gate at -42 (quieter values forced
to -60), normalized = clamp((gatedDb + 50) / 40, 0, 1),
curved = Math.pow(normalized, 0.6). -/
noncomputable def nativeCurved (db : ℝ) : ℝ :=
  let noiseGateDb : ℝ := -42
  let gatedDb := if db > noiseGateDb then db else -60
  let normalized := max 0 (min 1 ((gatedDb + 50) / 40))
  normalized ^ (0.6 : ℝ)

/-- State of the native capture path: smoothedLevelRef and the published
audioLevel. -/
structure NativeState where
  smoothedLevel : ℝ
  audioLevel : ℝ

def initialNativeState : NativeState := ⟨0, 0⟩

/-- One invocation of the native recording-status callback
(useAudioLevel.ts lines 205-227) on one metering value in dB. -/
noncomputable def statusUpdate (db : ℝ) (s : NativeState) : NativeState :=
  let curved := nativeCurved db
  let smoothed := smoothStep curved s.smoothedLevel
  let finalLevel := if smoothed < 0.02 then 0 else smoothed
  ⟨smoothed, finalLevel⟩

noncomputable def runStatusUpdates (dbs : List ℝ) (s : NativeState) : NativeState :=
  dbs.foldl (fun t db => statusUpdate db t) s

/-- Conversation state of ReactiveOrb.tsx: the OrbState prop
(idle | user | ai). -/
inductive ConvState
  | idle
  | user
  | ai

/-- Ordinal mapping of ReactiveOrb.tsx line 422:
targetStateRef.current = state === 'idle' ? 0 : state === 'user' ? 1 : 2. -/
noncomputable def stateOrdinal : ConvState → ℝ
  | .idle => 0
  | .user => 1
  | .ai => 2

/-- targetStateRef and currentStateRef of ReactiveOrb.tsx lines 406-407. -/
structure InterpState where
  target : ℝ
  value : ℝ

/-- Both refs are initialized with useRef(0). -/
noncomputable def initInterp : InterpState := ⟨0, 0⟩

/-- An event seen by the interpolator: either the state prop changes
(line 422 re-targets) or the render loop ticks (line 487 updates the
value). -/
inductive OrbEvent
  | setState (st : ConvState)
  | tick

/-- Effect of one event: line 422 on setState, line 487
(currentStateRef.current += (targetStateRef.current -
currentStateRef.current) * 0.08) on tick. -/
noncomputable def interpStep : OrbEvent → InterpState → InterpState
  | .setState st, s => { s with target := stateOrdinal st }
  | .tick, s => { s with value := s.value + (s.target - s.value) * 0.08 }

noncomputable def runInterp (evs : List OrbEvent) (s : InterpState) : InterpState :=
  evs.foldl (fun t e => interpStep e t) s

/-- The target ordinals assigned during a sequence of events. -/
noncomputable def visitedTargets (evs : List OrbEvent) : List ℝ :=
  evs.filterMap fun e =>
    match e with
    | .setState st => some (stateOrdinal st)
    | .tick => none

/-- Minimum over the initial target 0 and all targets assigned so far. -/
noncomputable def visitedMin (evs : List OrbEvent) : ℝ :=
  (visitedTargets evs).foldl min 0

/-- Maximum over the initial target 0 and all targets assigned so far. -/
noncomputable def visitedMax (evs : List OrbEvent) : ℝ :=
  (visitedTargets evs).foldl max 0

/-- Resource view of the web capture path of useAudioLevel.ts:
how many media streams have been acquired and not yet stopped, how many
requestAnimationFrame update loops are running, whether streamRef /
webAnimationRef currently hold a value (only the most recently stored
stream and frame id can be reached through the refs), plus the
recording flag, smoothing state and published level touched by
start/stop. -/
structure SessionRes where
  liveStreams : ℕ
  liveLoops : ℕ
  streamHeld : Bool
  animHeld : Bool
  isRecording : Bool
  smoothedLevel : ℝ
  audioLevel : ℝ

noncomputable def initialSession : SessionRes := ⟨0, 0, false, false, false, 0, 0⟩

/-- startWebRecording (useAudioLevel.ts lines 71-160): unconditionally
acquires a fresh getUserMedia stream and audio graph, stores them in the
refs (overwriting whatever was there), sets isRecording and starts a new
updateLevel requestAnimationFrame loop.  There is no check for an
already-active session, so a previously held stream or loop stays live
but unreachable. -/
noncomputable def startWebRecording (s : SessionRes) : SessionRes :=
  { liveStreams := s.liveStreams + 1
    liveLoops := s.liveLoops + 1
    streamHeld := true
    animHeld := true
    isRecording := true
    smoothedLevel := s.smoothedLevel
    audioLevel := s.audioLevel }

/-- stopWebRecording (useAudioLevel.ts lines 163-185): cancels the held
animation frame if any, disconnects and closes the held audio graph,
stops the held stream tracks if any, nulls all refs, zeroes
smoothedLevelRef, clears isRecording and publishes audioLevel 0.
Every release is guarded by a null check, so a stop with empty refs
releases nothing and raises no error. -/
noncomputable def stopWebRecording (s : SessionRes) : SessionRes :=
  { liveStreams := s.liveStreams - (if s.streamHeld then 1 else 0)
    liveLoops := s.liveLoops - (if s.animHeld then 1 else 0)
    streamHeld := false
    animHeld := false
    isRecording := false
    smoothedLevel := 0
    audioLevel := 0 }

/-- Resource view of the native capture path: recordingRef and the
count of Audio.Recording objects started and not yet unloaded. -/
structure NativeRes where
  recordingHeld : Bool
  liveRecordings : ℕ
  isRecording : Bool
  smoothedLevel : ℝ
  audioLevel : ℝ

/-- stopNativeRecording (useAudioLevel.ts lines 269-290): if
recordingRef holds a recording it is stopped and unloaded inside a
try/catch (a rejection is swallowed with the comment "May already be
stopped") and the ref is nulled; smoothedLevelRef is zeroed,
isRecording cleared, audioLevel published as 0. -/
noncomputable def stopNativeRecording (s : NativeRes) : NativeRes :=
  { recordingHeld := false
    liveRecordings := s.liveRecordings - (if s.recordingHeld then 1 else 0)
    isRecording := false
    smoothedLevel := 0
    audioLevel := 0 }

/-- Modelled from the spec (section 8, first testable property): the
gating step written as clamp((raw - floor)/(1 - floor), 0, 1), used
only for comparison against the gate the code computes. -/
noncomputable def specGate (raw floor : ℝ) : ℝ :=
  max 0 (min 1 ((raw - floor) / (1 - floor)))

/-- Modelled from the spec (section 4.2, smoothing): asymmetric
single-pole exponential moving average with named attack and release
coefficients, used only for comparison against the code. -/
noncomputable def specSmooth (attack release prev curved : ℝ) : ℝ :=
  if curved > prev then prev + (curved - prev) * attack
  else prev + (curved - prev) * release

/-- Iterating the smoothing of useAudioLevel.ts lines 140-142 with the
clamped target held constant, as happens for a step input. -/
noncomputable def smoothIter (target x0 : ℝ) : ℕ → ℝ
  | 0 => x0
  | n + 1 => smoothStep target (smoothIter target x0 n)

/-- Iterating the smoothing of src/unnamed/part_000 lines 187-189 with
the clamped target held constant. -/
noncomputable def altSmoothIter (target x0 : ℝ) : ℕ → ℝ
  | 0 => x0
  | n + 1 => altSmoothStep target (altSmoothIter target x0 n)

end

/-! Helper lemmas. -/

lemma lerp_bounds {a b f : ℝ} (ha0 : 0 ≤ a) (ha1 : a ≤ 1) (hb0 : 0 ≤ b) (hb1 : b ≤ 1)
    (hf0 : 0 ≤ f) (hf1 : f ≤ 1) : 0 ≤ a + (b - a) * f ∧ a + (b - a) * f ≤ 1 := by
  constructor <;> nlinarith

lemma gatedLevel_nonneg (raw noiseFloor : ℝ) (h1 : raw ≤ 1) :
    0 ≤ gatedLevel raw noiseFloor := by
  unfold gatedLevel
  rcases le_or_lt noiseFloor 1 with h | h
  · exact div_nonneg (le_max_left 0 _) (by linarith)
  · rw [max_eq_left (by linarith), zero_div]

lemma clampedLevel_mem (raw noiseFloor : ℝ) (h1 : raw ≤ 1) :
    0 ≤ clampedLevel raw noiseFloor ∧ clampedLevel raw noiseFloor ≤ 1 := by
  unfold clampedLevel curvedLevel
  constructor
  · exact le_min zero_le_one
      (mul_nonneg (Real.rpow_nonneg (gatedLevel_nonneg raw noiseFloor h1) _) (by norm_num))
  · exact min_le_left 1 _

lemma smoothStep_mem {c p : ℝ} (hc0 : 0 ≤ c) (hc1 : c ≤ 1) (hp0 : 0 ≤ p) (hp1 : p ≤ 1) :
    0 ≤ smoothStep c p ∧ smoothStep c p ≤ 1 := by
  unfold smoothStep
  split
  · exact lerp_bounds hp0 hp1 hc0 hc1 (by norm_num) (by norm_num)
  · exact lerp_bounds hp0 hp1 hc0 hc1 (by norm_num) (by norm_num)

/-- One web update keeps the retained smoothing state and the published
level inside the unit interval, for any noise floor value. -/
lemma updateLevel_mem (b : Bool) (raw : ℝ) (s : WebState) (hraw : 0 ≤ raw ∧ raw ≤ 1)
    (hs : 0 ≤ s.smoothedLevel ∧ s.smoothedLevel ≤ 1)
    (ha : 0 ≤ s.audioLevel ∧ s.audioLevel ≤ 1) :
    (0 ≤ (updateLevel b raw s).smoothedLevel ∧ (updateLevel b raw s).smoothedLevel ≤ 1) ∧
    (0 ≤ (updateLevel b raw s).audioLevel ∧ (updateLevel b raw s).audioLevel ≤ 1) := by
  unfold updateLevel
  cases b with
  | true => simpa using ⟨hs, ha⟩
  | false =>
    simp only [Bool.false_eq_true, if_false]
    have hcl := clampedLevel_mem raw s.noiseFloor hraw.2
    have hsm := smoothStep_mem hcl.1 hcl.2 hs.1 hs.2
    refine ⟨hsm, ?_⟩
    split
    · exact ⟨le_refl 0, zero_le_one⟩
    · exact hsm

lemma runUpdates_mem {inputs : List (Bool × ℝ)} :
    ∀ {s : WebState}, (∀ p ∈ inputs, 0 ≤ p.2 ∧ p.2 ≤ 1) →
    (0 ≤ s.smoothedLevel ∧ s.smoothedLevel ≤ 1) →
    (0 ≤ s.audioLevel ∧ s.audioLevel ≤ 1) →
    (0 ≤ (runUpdates inputs s).smoothedLevel ∧ (runUpdates inputs s).smoothedLevel ≤ 1) ∧
    (0 ≤ (runUpdates inputs s).audioLevel ∧ (runUpdates inputs s).audioLevel ≤ 1) := by
  induction inputs with
  | nil => intro s _ hs ha; exact ⟨hs, ha⟩
  | cons p ps ih =>
    intro s h hs ha
    have hstep := updateLevel_mem p.1 p.2 s
      (h p (List.mem_cons_self p ps)) hs ha
    exact ih (fun q hq => h q (List.mem_cons_of_mem p hq)) hstep.1 hstep.2

lemma nativeCurved_mem (db : ℝ) : 0 ≤ nativeCurved db ∧ nativeCurved db ≤ 1 := by
  unfold nativeCurved
  have h0 : (0:ℝ) ≤ max 0 (min 1 (((if db > -42 then db else -60) + 50) / 40)) :=
    le_max_left 0 _
  have h1 : max 0 (min 1 (((if db > -42 then db else -60) + 50) / 40)) ≤ 1 :=
    max_le zero_le_one (min_le_left 1 _)
  exact ⟨Real.rpow_nonneg h0 _, Real.rpow_le_one h0 h1 (by norm_num)⟩

lemma statusUpdate_mem (db : ℝ) (s : NativeState)
    (hs : 0 ≤ s.smoothedLevel ∧ s.smoothedLevel ≤ 1) :
    (0 ≤ (statusUpdate db s).smoothedLevel ∧ (statusUpdate db s).smoothedLevel ≤ 1) ∧
    (0 ≤ (statusUpdate db s).audioLevel ∧ (statusUpdate db s).audioLevel ≤ 1) := by
  unfold statusUpdate
  have hc := nativeCurved_mem db
  have hsm := smoothStep_mem hc.1 hc.2 hs.1 hs.2
  refine ⟨hsm, ?_⟩
  simp only
  split
  · exact ⟨le_refl 0, zero_le_one⟩
  · exact hsm

lemma runStatusUpdates_mem {dbs : List ℝ} :
    ∀ {s : NativeState}, (0 ≤ s.smoothedLevel ∧ s.smoothedLevel ≤ 1) →
    (0 ≤ s.audioLevel ∧ s.audioLevel ≤ 1) →
    (0 ≤ (runStatusUpdates dbs s).smoothedLevel ∧ (runStatusUpdates dbs s).smoothedLevel ≤ 1) ∧
    (0 ≤ (runStatusUpdates dbs s).audioLevel ∧ (runStatusUpdates dbs s).audioLevel ≤ 1) := by
  induction dbs with
  | nil => intro s hs ha; exact ⟨hs, ha⟩
  | cons d ds ih =>
    intro s hs ha
    have hstep := statusUpdate_mem d s hs
    exact ih hstep.1 hstep.2

lemma maxSamples_concat (cs : List ℝ) (r : ℝ) (h : cs ≠ []) :
    maxSamples (cs ++ [r]) = max (maxSamples cs) r := by
  cases cs with
  | nil => exact absurd rfl h
  | cons x xs => simp [maxSamples, List.foldl_append]

lemma maxSamples_le_append (ds : List ℝ) : ∀ cs : List ℝ, cs ≠ [] →
    maxSamples cs ≤ maxSamples (cs ++ ds) := by
  induction ds with
  | nil => intro cs _; simp
  | cons d ds ih =>
    intro cs h
    have h2 : cs ++ d :: ds = (cs ++ [d]) ++ ds := by simp
    rw [h2]
    have h3 : maxSamples cs ≤ maxSamples (cs ++ [d]) := by
      rw [maxSamples_concat cs d h]; exact le_max_left _ _
    exact h3.trans (ih (cs ++ [d]) (by simp))

lemma foldl_max_bounds : ∀ (xs : List ℝ) (a : ℝ), 0 ≤ a → a ≤ 1 →
    (∀ x ∈ xs, 0 ≤ x ∧ x ≤ 1) → 0 ≤ xs.foldl max a ∧ xs.foldl max a ≤ 1 := by
  intro xs
  induction xs with
  | nil => intro a h0 h1 _; exact ⟨h0, h1⟩
  | cons x xs ih =>
    intro a h0 h1 h
    exact ih (max a x) (le_trans h0 (le_max_left a x))
      (max_le h1 (h x (List.mem_cons_self x xs)).2)
      (fun y hy => h y (List.mem_cons_of_mem x hy))

lemma maxSamples_bounds (l : List ℝ) (hne : l ≠ []) (h : ∀ x ∈ l, 0 ≤ x ∧ x ≤ 1) :
    0 ≤ maxSamples l ∧ maxSamples l ≤ 1 := by
  cases l with
  | nil => exact absurd rfl hne
  | cons x xs =>
    exact foldl_max_bounds xs x (h x (List.mem_cons_self x xs)).1
      (h x (List.mem_cons_self x xs)).2 (fun y hy => h y (List.mem_cons_of_mem x hy))

lemma runUpdates_append (xs ys : List (Bool × ℝ)) (s : WebState) :
    runUpdates (xs ++ ys) s = runUpdates ys (runUpdates xs s) := by
  simp [runUpdates, List.foldl_append]

lemma runCal_samples (cs : List ℝ) : ∀ s : WebState,
    (runUpdates (cs.map fun r => ((true : Bool), r)) s).calibSamples
      = s.calibSamples ++ cs := by
  induction cs with
  | nil => intro s; simp [runUpdates]
  | cons c cs ih =>
    intro s
    have hstep : runUpdates ((c :: cs).map fun r => ((true : Bool), r)) s
        = runUpdates (cs.map fun r => ((true : Bool), r)) (updateLevel true c s) := rfl
    rw [hstep, ih]
    simp [updateLevel]

lemma runCal_floor (cs : List ℝ) : ∀ s : WebState, cs ≠ [] →
    (runUpdates (cs.map fun r => ((true : Bool), r)) s).noiseFloor
      = maxSamples (s.calibSamples ++ cs) * 1.2 := by
  induction cs with
  | nil => intro s h; exact absurd rfl h
  | cons c cs ih =>
    intro s _
    cases cs with
    | nil => simp [runUpdates, updateLevel]
    | cons c2 cs2 =>
      have hstep : runUpdates ((c :: c2 :: cs2).map fun r => ((true : Bool), r)) s
          = runUpdates ((c2 :: cs2).map fun r => ((true : Bool), r)) (updateLevel true c s) :=
        rfl
      rw [hstep, ih (updateLevel true c s) (by simp)]
      have hsamp : (updateLevel true c s).calibSamples = s.calibSamples ++ [c] := by
        simp [updateLevel]
      rw [hsamp]
      simp

lemma runActive_frozen (as : List ℝ) : ∀ s : WebState,
    (runUpdates (as.map fun r => ((false : Bool), r)) s).noiseFloor = s.noiseFloor ∧
    (runUpdates (as.map fun r => ((false : Bool), r)) s).calibSamples = s.calibSamples := by
  induction as with
  | nil => intro s; exact ⟨rfl, rfl⟩
  | cons a as ih =>
    intro s
    have hstep : runUpdates ((a :: as).map fun r => ((false : Bool), r)) s
        = runUpdates (as.map fun r => ((false : Bool), r)) (updateLevel false a s) := rfl
    obtain ⟨h1, h2⟩ := ih (updateLevel false a s)
    rw [hstep]
    constructor
    · rw [h1]; simp [updateLevel]
    · rw [h2]; simp [updateLevel]

lemma updateLevel_floor_mem (b : Bool) (raw : ℝ) (s : WebState)
    (hraw : 0 ≤ raw ∧ raw ≤ 1)
    (hsamp : ∀ x ∈ s.calibSamples, 0 ≤ x ∧ x ≤ 1)
    (hf : 0 ≤ s.noiseFloor ∧ s.noiseFloor ≤ 1.2) :
    (∀ x ∈ (updateLevel b raw s).calibSamples, 0 ≤ x ∧ x ≤ 1) ∧
    (0 ≤ (updateLevel b raw s).noiseFloor ∧ (updateLevel b raw s).noiseFloor ≤ 1.2) := by
  unfold updateLevel
  cases b with
  | false => simpa using ⟨hsamp, hf⟩
  | true =>
    simp only [if_true]
    have hmem : ∀ x ∈ s.calibSamples ++ [raw], 0 ≤ x ∧ x ≤ 1 := by
      intro x hx
      rcases List.mem_append.mp hx with h | h
      · exact hsamp x h
      · rcases List.mem_singleton.mp h with rfl
        exact hraw
    have hms := maxSamples_bounds (s.calibSamples ++ [raw]) (by simp) hmem
    refine ⟨hmem, mul_nonneg hms.1 (by norm_num), ?_⟩
    calc maxSamples (s.calibSamples ++ [raw]) * 1.2 ≤ 1 * 1.2 :=
          mul_le_mul_of_nonneg_right hms.2 (by norm_num)
      _ = 1.2 := by norm_num

lemma runUpdates_floor_mem {inputs : List (Bool × ℝ)} :
    ∀ {s : WebState}, (∀ p ∈ inputs, 0 ≤ p.2 ∧ p.2 ≤ 1) →
    (∀ x ∈ s.calibSamples, 0 ≤ x ∧ x ≤ 1) →
    (0 ≤ s.noiseFloor ∧ s.noiseFloor ≤ 1.2) →
    0 ≤ (runUpdates inputs s).noiseFloor ∧ (runUpdates inputs s).noiseFloor ≤ 1.2 := by
  induction inputs with
  | nil => intro s _ _ hf; exact hf
  | cons p ps ih =>
    intro s h hsamp hf
    have hstep := updateLevel_floor_mem p.1 p.2 s
      (h p (List.mem_cons_self p ps)) hsamp hf
    exact ih (fun q hq => h q (List.mem_cons_of_mem p hq)) hstep.1 hstep.2

/-! Claim theorems. -/

/-- In the exact-real model (total division, 0 / 0 = 0) the published
level stays in [0,1] for every finite input sequence, on both paths.
This bound depends on Lean totalizing the division: it does NOT hold
for the source, which publishes NaN once the uncapped noise floor
reaches exactly 1 (see the non-finite-aware divergence theorem below).
It shows the non-finite gate is the only way the source pipeline can
leave [0,1]. -/
theorem exactReal_level_unit_interval (inputs : List (Bool × ℝ)) (dbs : List ℝ)
    (h : ∀ p ∈ inputs, 0 ≤ p.2 ∧ p.2 ≤ 1) :
    (0 ≤ (runUpdates inputs initialWebState).audioLevel ∧
      (runUpdates inputs initialWebState).audioLevel ≤ 1) ∧
    (0 ≤ (runStatusUpdates dbs initialNativeState).audioLevel ∧
      (runStatusUpdates dbs initialNativeState).audioLevel ≤ 1) := by
  constructor
  · exact (runUpdates_mem h (by norm_num [initialWebState]) (by norm_num [initialWebState])).2
  · exact (runStatusUpdates_mem (by norm_num [initialNativeState])
      (by norm_num [initialNativeState])).2

/-- C1: the claim that the published level always lies in [0,1] is the
spec's intent (its section 4.2 caps the floor at 0.9 precisely "to
avoid division blow-up"), but the code omits the cap and violates it:
the calibration sample 5/6, a legal raw value in [0,1], sets the noise
floor to exactly 5/6 * 1.2 = 1, and the next active-phase sample makes
the gate divide 0 by 0, so the callback publishes NaN (the non-finite
marker none), which is not a value in [0,1].  With IEEE doubles the
same happens: the double nearest 5/6 times 1.2 rounds to exactly 1.0. -/
theorem conditionedLevel_nan_divergence :
    ((0 : ℝ) ≤ 5 / 6 ∧ (5 / 6 : ℝ) ≤ 1) ∧
    (updateLevelJs true (5 / 6) ⟨[], 0.05, some 0, some 0⟩).noiseFloor = 1 ∧
    (updateLevelJs false 0.5
        (updateLevelJs true (5 / 6) ⟨[], 0.05, some 0, some 0⟩)).audioLevel = none := by
  have h1 : updateLevelJs true (5 / 6) ⟨[], 0.05, some 0, some 0⟩
      = ⟨[5 / 6], 1, some 0, some 0⟩ := by
    simp only [updateLevelJs, if_true, List.nil_append]
    norm_num [maxSamples]
  refine ⟨⟨by norm_num, by norm_num⟩, by rw [h1], ?_⟩
  rw [h1]
  simp [updateLevelJs, jsDiv]

/-- C2: for raw in [0,1] and floor in [0,0.9], the gate the code
computes (max(0, raw - floor) / (1 - floor)) equals
clamp((raw - floor)/(1 - floor), 0, 1) and lies in [0,1]. -/
theorem gate_matches_clamp (raw floor : ℝ) (h0 : 0 ≤ raw) (h1 : raw ≤ 1)
    (hf0 : 0 ≤ floor) (hf1 : floor ≤ 0.9) :
    gatedLevel raw floor = specGate raw floor ∧
    0 ≤ gatedLevel raw floor ∧ gatedLevel raw floor ≤ 1 := by
  have hden : (0 : ℝ) < 1 - floor := by linarith
  by_cases hc : floor ≤ raw
  · have hmax : max 0 (raw - floor) = raw - floor := max_eq_right (by linarith)
    have hle1 : (raw - floor) / (1 - floor) ≤ 1 := by
      rw [div_le_one hden]; linarith
    have hge0 : 0 ≤ (raw - floor) / (1 - floor) :=
      div_nonneg (by linarith) (le_of_lt hden)
    unfold gatedLevel specGate
    rw [hmax, min_eq_right hle1, max_eq_right hge0]
    exact ⟨rfl, hge0, hle1⟩
  · push_neg at hc
    have hmax : max 0 (raw - floor) = 0 := max_eq_left (by linarith)
    have hq : (raw - floor) / (1 - floor) ≤ 0 :=
      div_nonpos_iff.mpr (Or.inr ⟨by linarith, by linarith⟩)
    unfold gatedLevel specGate
    rw [hmax, zero_div, min_eq_right (by linarith : (raw - floor) / (1 - floor) ≤ 1),
      max_eq_left hq]
    exact ⟨rfl, le_refl 0, zero_le_one⟩

theorem gate_matches_clamp_witness :
    ((0 : ℝ) ≤ 0.5 ∧ (0.5 : ℝ) ≤ 1 ∧ (0 : ℝ) ≤ 0.1 ∧ (0.1 : ℝ) ≤ 0.9) ∧
    (gatedLevel 0.5 0.1 = specGate 0.5 0.1 ∧
     0 ≤ gatedLevel 0.5 0.1 ∧ gatedLevel 0.5 0.1 ≤ 1) :=
  ⟨by norm_num,
   gate_matches_clamp 0.5 0.1 (by norm_num) (by norm_num) (by norm_num) (by norm_num)⟩

/-- C3: while the calibration window is open each sample sets the noise
floor to max(samples so far) times 1.2, so after any nonempty
calibration prefix cs the floor equals maxSamples cs * 1.2 and further
calibration samples can only raise it; once the window has elapsed the
floor equals max(window samples) * 1.2 and no active-phase sample
changes it. -/
theorem calibration_floor_spec (cs ds as : List ℝ) (hcs : cs ≠ []) :
    (runUpdates (cs.map fun r => ((true : Bool), r)) initialWebState).noiseFloor
      = maxSamples cs * 1.2 ∧
    (runUpdates (cs.map fun r => ((true : Bool), r)) initialWebState).noiseFloor
      ≤ (runUpdates ((cs ++ ds).map fun r => ((true : Bool), r)) initialWebState).noiseFloor ∧
    (runUpdates ((cs.map fun r => ((true : Bool), r)) ++ (as.map fun r => ((false : Bool), r)))
        initialWebState).noiseFloor = maxSamples cs * 1.2 := by
  have h1 : (runUpdates (cs.map fun r => ((true : Bool), r)) initialWebState).noiseFloor
      = maxSamples cs * 1.2 := by
    have := runCal_floor cs initialWebState hcs
    simpa [initialWebState] using this
  refine ⟨h1, ?_, ?_⟩
  · have hne : cs ++ ds ≠ [] := by
      intro hh
      exact hcs (List.append_eq_nil.mp hh).1
    have h2 : (runUpdates ((cs ++ ds).map fun r => ((true : Bool), r)) initialWebState).noiseFloor
        = maxSamples (cs ++ ds) * 1.2 := by
      have := runCal_floor (cs ++ ds) initialWebState hne
      simpa [initialWebState] using this
    rw [h1, h2]
    exact mul_le_mul_of_nonneg_right (maxSamples_le_append ds cs hcs) (by norm_num)
  · rw [runUpdates_append]
    rw [(runActive_frozen as _).1]
    exact h1

theorem calibration_floor_spec_witness :
    (([(0.5 : ℝ)] : List ℝ) ≠ []) ∧
    ((runUpdates ([(0.5 : ℝ)].map fun r => ((true : Bool), r)) initialWebState).noiseFloor
       = maxSamples [(0.5 : ℝ)] * 1.2 ∧
     (runUpdates ([(0.5 : ℝ)].map fun r => ((true : Bool), r)) initialWebState).noiseFloor
       ≤ (runUpdates (([(0.5 : ℝ)] ++ [(0.25 : ℝ)]).map fun r => ((true : Bool), r))
           initialWebState).noiseFloor ∧
     (runUpdates (([(0.5 : ℝ)].map fun r => ((true : Bool), r))
         ++ ([(0.75 : ℝ)].map fun r => ((false : Bool), r))) initialWebState).noiseFloor
       = maxSamples [(0.5 : ℝ)] * 1.2) :=
  ⟨by simp, calibration_floor_spec [(0.5 : ℝ)] [(0.25 : ℝ)] [(0.75 : ℝ)] (by simp)⟩

/-- C4 counterexample: a single calibration sample of 0.9 (a legal raw
value in [0,1]) drives the noise floor to 0.9 * 1.2 = 1.08, which is
outside [0, 0.9]: the code applies no cap. -/
theorem noiseFloor_cap_counterexample :
    (runUpdates [((true : Bool), (0.9 : ℝ))] initialWebState).noiseFloor = 1.08 ∧
    ¬ (runUpdates [((true : Bool), (0.9 : ℝ))] initialWebState).noiseFloor ≤ 0.9 := by
  have h : (runUpdates [((true : Bool), (0.9 : ℝ))] initialWebState).noiseFloor = 1.08 := by
    show (updateLevel true 0.9 initialWebState).noiseFloor = 1.08
    simp [updateLevel, initialWebState, maxSamples]
    norm_num
  exact ⟨h, by rw [h]; norm_num⟩

/-- C4 amended: the noise floor is never capped at 0.9; for calibration
samples in [0,1] it lies in [0, 1.2] throughout every session (it can
reach or exceed 1, as the counterexample shows). -/
theorem noiseFloor_range (inputs : List (Bool × ℝ))
    (h : ∀ p ∈ inputs, 0 ≤ p.2 ∧ p.2 ≤ 1) :
    0 ≤ (runUpdates inputs initialWebState).noiseFloor ∧
    (runUpdates inputs initialWebState).noiseFloor ≤ 1.2 := by
  apply runUpdates_floor_mem h
  · intro x hx
    simp [initialWebState] at hx
  · constructor <;> norm_num [initialWebState]

theorem noiseFloor_range_witness :
    (∀ p ∈ [((true : Bool), (0.9 : ℝ))], 0 ≤ p.2 ∧ p.2 ≤ 1) ∧
    (0 ≤ (runUpdates [((true : Bool), (0.9 : ℝ))] initialWebState).noiseFloor ∧
     (runUpdates [((true : Bool), (0.9 : ℝ))] initialWebState).noiseFloor ≤ 1.2) :=
  ⟨by intro p hp; simp only [List.mem_cons, List.not_mem_nil, or_false] at hp
      subst hp; norm_num,
   noiseFloor_range [((true : Bool), (0.9 : ℝ))]
     (by intro p hp; simp only [List.mem_cons, List.not_mem_nil, or_false] at hp
         subst hp; norm_num)⟩

/-- C5: every smoothing update follows
next = prev + (curved - prev) * attack when curved > prev and
next = prev + (curved - prev) * release otherwise, with attack in
[0.08, 0.3], release in [0.03, 0.08] and attack strictly greater than
release: the web and native callbacks use attack 0.3 / release 0.08,
the variant pipeline uses attack 0.08 / release 0.03. -/
theorem smoothing_matches_spec :
    (∃ a r : ℝ, 0.08 ≤ a ∧ a ≤ 0.3 ∧ 0.03 ≤ r ∧ r ≤ 0.08 ∧ r < a ∧
      (∀ (raw : ℝ) (s : WebState),
        (updateLevel false raw s).smoothedLevel
          = specSmooth a r s.smoothedLevel (clampedLevel raw s.noiseFloor)) ∧
      (∀ (db : ℝ) (s : NativeState),
        (statusUpdate db s).smoothedLevel
          = specSmooth a r s.smoothedLevel (nativeCurved db))) ∧
    (∃ a r : ℝ, 0.08 ≤ a ∧ a ≤ 0.3 ∧ 0.03 ≤ r ∧ r ≤ 0.08 ∧ r < a ∧
      (∀ (raw : ℝ) (s : WebState),
        (updateLevelAlt false raw s).smoothedLevel
          = specSmooth a r s.smoothedLevel (altClampedLevel raw s.noiseFloor))) := by
  constructor
  · refine ⟨0.3, 0.08, by norm_num, by norm_num, by norm_num, by norm_num, by norm_num,
      ?_, ?_⟩
    · intro raw s
      show smoothStep (clampedLevel raw s.noiseFloor) s.smoothedLevel = _
      unfold smoothStep specSmooth
      by_cases hc : clampedLevel raw s.noiseFloor > s.smoothedLevel <;> simp [hc]
    · intro db s
      show smoothStep (nativeCurved db) s.smoothedLevel = _
      unfold smoothStep specSmooth
      by_cases hc : nativeCurved db > s.smoothedLevel <;> simp [hc]
  · refine ⟨0.08, 0.03, by norm_num, by norm_num, by norm_num, by norm_num, by norm_num, ?_⟩
    intro raw s
    show altSmoothStep (altClampedLevel raw s.noiseFloor) s.smoothedLevel = _
    unfold altSmoothStep specSmooth
    by_cases hc : altClampedLevel raw s.noiseFloor > s.smoothedLevel <;> simp [hc]

lemma foldl_min_le (l : List ℝ) : ∀ a : ℝ,
    l.foldl min a ≤ a ∧ ∀ x ∈ l, l.foldl min a ≤ x := by
  induction l with
  | nil => intro a; exact ⟨le_refl a, by simp⟩
  | cons y ys ih =>
    intro a
    have h := ih (min a y)
    refine ⟨h.1.trans (min_le_left a y), ?_⟩
    intro x hx
    rcases List.mem_cons.mp hx with h1 | h1
    · subst h1; exact h.1.trans (min_le_right a x)
    · exact h.2 x h1

lemma foldl_le_max (l : List ℝ) : ∀ a : ℝ,
    a ≤ l.foldl max a ∧ ∀ x ∈ l, x ≤ l.foldl max a := by
  induction l with
  | nil => intro a; exact ⟨le_refl a, by simp⟩
  | cons y ys ih =>
    intro a
    have h := ih (max a y)
    refine ⟨(le_max_left a y).trans h.1, ?_⟩
    intro x hx
    rcases List.mem_cons.mp hx with h1 | h1
    · subst h1; exact (le_max_right a x).trans h.1
    · exact h.2 x h1

lemma runInterp_bounded (lo hi : ℝ) : ∀ (evs : List OrbEvent) (s : InterpState),
    lo ≤ s.value → s.value ≤ hi → lo ≤ s.target → s.target ≤ hi →
    (∀ t ∈ visitedTargets evs, lo ≤ t ∧ t ≤ hi) →
    lo ≤ (runInterp evs s).value ∧ (runInterp evs s).value ≤ hi := by
  intro evs
  induction evs with
  | nil => intro s h1 h2 _ _ _; exact ⟨h1, h2⟩
  | cons e es ih =>
    intro s h1 h2 h3 h4 h5
    have hstep : runInterp (e :: es) s = runInterp es (interpStep e s) := rfl
    rw [hstep]
    cases e with
    | setState st =>
      have hvt : visitedTargets (OrbEvent.setState st :: es)
          = stateOrdinal st :: visitedTargets es := by
        simp [visitedTargets]
      rw [hvt] at h5
      have hst := h5 (stateOrdinal st) (List.mem_cons_self _ _)
      exact ih (interpStep (OrbEvent.setState st) s) h1 h2 hst.1 hst.2
        (fun t ht => h5 t (List.mem_cons_of_mem _ ht))
    | tick =>
      have hvt : visitedTargets (OrbEvent.tick :: es) = visitedTargets es := by
        simp [visitedTargets]
      rw [hvt] at h5
      have hlo : lo ≤ s.value + (s.target - s.value) * 0.08 := by nlinarith
      have hhi : s.value + (s.target - s.value) * 0.08 ≤ hi := by nlinarith
      exact ih (interpStep OrbEvent.tick s) hlo hhi h3 h4 h5

/-- C6: for any sequence of re-targets among the ordinals of idle, user
and ai, interleaved arbitrarily with ticks of
value += (target - value) * 0.08, the interpolated value always stays
within [min of all targets visited so far, max of all targets visited
so far] (the initial target 0 of useRef(0) counts as visited). -/
theorem interpolator_no_overshoot (evs : List OrbEvent) :
    visitedMin evs ≤ (runInterp evs initInterp).value ∧
    (runInterp evs initInterp).value ≤ visitedMax evs := by
  have hmin := foldl_min_le (visitedTargets evs) 0
  have hmax := foldl_le_max (visitedTargets evs) 0
  exact runInterp_bounded (visitedMin evs) (visitedMax evs) evs initInterp
    hmin.1 hmax.1 hmin.1 hmax.1
    (fun t ht => ⟨hmin.2 t ht, hmax.2 t ht⟩)

lemma smoothIter_up (p d : ℝ) (hd : 0 < d) : ∀ n : ℕ,
    smoothIter (p + d) p n = (p + d) - d * 0.7 ^ n := by
  intro n
  induction n with
  | zero => simp [smoothIter]
  | succ n ih =>
    have hpos : (0 : ℝ) < d * 0.7 ^ n := mul_pos hd (pow_pos (by norm_num) n)
    have hlt : smoothIter (p + d) p n < p + d := by rw [ih]; linarith
    show smoothStep (p + d) (smoothIter (p + d) p n) = _
    unfold smoothStep
    rw [if_pos hlt, ih]
    ring

lemma smoothIter_down (p d : ℝ) (hd : 0 < d) : ∀ n : ℕ,
    smoothIter (p - d) p n = (p - d) + d * 0.92 ^ n := by
  intro n
  induction n with
  | zero => simp [smoothIter]
  | succ n ih =>
    have hpos : (0 : ℝ) < d * 0.92 ^ n := mul_pos hd (pow_pos (by norm_num) n)
    have hge : ¬ (p - d > smoothIter (p - d) p n) := by rw [ih]; push_neg; linarith
    show smoothStep (p - d) (smoothIter (p - d) p n) = _
    unfold smoothStep
    rw [if_neg hge, ih]
    ring

lemma altSmoothIter_up (p d : ℝ) (hd : 0 < d) : ∀ n : ℕ,
    altSmoothIter (p + d) p n = (p + d) - d * 0.92 ^ n := by
  intro n
  induction n with
  | zero => simp [altSmoothIter]
  | succ n ih =>
    have hpos : (0 : ℝ) < d * 0.92 ^ n := mul_pos hd (pow_pos (by norm_num) n)
    have hlt : altSmoothIter (p + d) p n < p + d := by rw [ih]; linarith
    show altSmoothStep (p + d) (altSmoothIter (p + d) p n) = _
    unfold altSmoothStep
    rw [if_pos hlt, ih]
    ring

lemma altSmoothIter_down (p d : ℝ) (hd : 0 < d) : ∀ n : ℕ,
    altSmoothIter (p - d) p n = (p - d) + d * 0.97 ^ n := by
  intro n
  induction n with
  | zero => simp [altSmoothIter]
  | succ n ih =>
    have hpos : (0 : ℝ) < d * 0.97 ^ n := mul_pos hd (pow_pos (by norm_num) n)
    have hge : ¬ (p - d > altSmoothIter (p - d) p n) := by rw [ih]; push_neg; linarith
    show altSmoothStep (p - d) (altSmoothIter (p - d) p n) = _
    unfold altSmoothStep
    rw [if_neg hge, ih]
    ring

/-- C7: from a settled state p, an upward step of magnitude d comes
within 90 percent of its target in strictly fewer smoothing updates
than an equal-magnitude downward step: with the web constants the
minimal counts are 7 (attack 0.3) versus 28 (release 0.08), and with
the variant constants 28 (attack 0.08) versus 76 (release 0.03). -/
theorem attack_faster_than_release (p d : ℝ) (hd : 0 < d) :
    ((|smoothIter (p + d) p 7 - (p + d)| ≤ 0.1 * d ∧
      ∀ m, m < 7 → 0.1 * d < |smoothIter (p + d) p m - (p + d)|) ∧
     (|smoothIter (p - d) p 28 - (p - d)| ≤ 0.1 * d ∧
      ∀ m, m < 28 → 0.1 * d < |smoothIter (p - d) p m - (p - d)|) ∧
     (7 : ℕ) < 28) ∧
    ((|altSmoothIter (p + d) p 28 - (p + d)| ≤ 0.1 * d ∧
      ∀ m, m < 28 → 0.1 * d < |altSmoothIter (p + d) p m - (p + d)|) ∧
     (|altSmoothIter (p - d) p 76 - (p - d)| ≤ 0.1 * d ∧
      ∀ m, m < 76 → 0.1 * d < |altSmoothIter (p - d) p m - (p - d)|) ∧
     (28 : ℕ) < 76) := by
  have habs_up : ∀ n : ℕ, |smoothIter (p + d) p n - (p + d)| = d * 0.7 ^ n := by
    intro n
    rw [smoothIter_up p d hd n]
    have h : (p + d) - d * 0.7 ^ n - (p + d) = -(d * 0.7 ^ n) := by ring
    rw [h, abs_neg, abs_of_nonneg (by positivity)]
  have habs_down : ∀ n : ℕ, |smoothIter (p - d) p n - (p - d)| = d * 0.92 ^ n := by
    intro n
    rw [smoothIter_down p d hd n]
    have h : (p - d) + d * 0.92 ^ n - (p - d) = d * 0.92 ^ n := by ring
    rw [h, abs_of_nonneg (by positivity)]
  have habs_aup : ∀ n : ℕ, |altSmoothIter (p + d) p n - (p + d)| = d * 0.92 ^ n := by
    intro n
    rw [altSmoothIter_up p d hd n]
    have h : (p + d) - d * 0.92 ^ n - (p + d) = -(d * 0.92 ^ n) := by ring
    rw [h, abs_neg, abs_of_nonneg (by positivity)]
  have habs_adown : ∀ n : ℕ, |altSmoothIter (p - d) p n - (p - d)| = d * 0.97 ^ n := by
    intro n
    rw [altSmoothIter_down p d hd n]
    have h : (p - d) + d * 0.97 ^ n - (p - d) = d * 0.97 ^ n := by ring
    rw [h, abs_of_nonneg (by positivity)]
  refine ⟨⟨⟨?_, ?_⟩, ⟨?_, ?_⟩, by norm_num⟩, ⟨?_, ?_⟩, ⟨?_, ?_⟩, by norm_num⟩
  · rw [habs_up]
    have h : (0.7 : ℝ) ^ 7 ≤ 0.1 := by norm_num
    nlinarith
  · intro m hm
    rw [habs_up]
    have h6 : (0.7 : ℝ) ^ 6 ≤ 0.7 ^ m :=
      pow_le_pow_of_le_one (by norm_num) (by norm_num) (by omega)
    have h : (0.1 : ℝ) < 0.7 ^ 6 := by norm_num
    nlinarith
  · rw [habs_down]
    have h : (0.92 : ℝ) ^ 28 ≤ 0.1 := by norm_num
    nlinarith
  · intro m hm
    rw [habs_down]
    have h27 : (0.92 : ℝ) ^ 27 ≤ 0.92 ^ m :=
      pow_le_pow_of_le_one (by norm_num) (by norm_num) (by omega)
    have h : (0.1 : ℝ) < 0.92 ^ 27 := by norm_num
    nlinarith
  · rw [habs_aup]
    have h : (0.92 : ℝ) ^ 28 ≤ 0.1 := by norm_num
    nlinarith
  · intro m hm
    rw [habs_aup]
    have h27 : (0.92 : ℝ) ^ 27 ≤ 0.92 ^ m :=
      pow_le_pow_of_le_one (by norm_num) (by norm_num) (by omega)
    have h : (0.1 : ℝ) < 0.92 ^ 27 := by norm_num
    nlinarith
  · rw [habs_adown]
    have h : (0.97 : ℝ) ^ 76 ≤ 0.1 := by norm_num
    nlinarith
  · intro m hm
    rw [habs_adown]
    have h75 : (0.97 : ℝ) ^ 75 ≤ 0.97 ^ m :=
      pow_le_pow_of_le_one (by norm_num) (by norm_num) (by omega)
    have h : (0.1 : ℝ) < 0.97 ^ 75 := by norm_num
    nlinarith

theorem attack_faster_than_release_witness :
    (0 : ℝ) < 1 ∧
    (((|smoothIter (0 + 1) 0 7 - (0 + 1)| ≤ 0.1 * 1 ∧
       ∀ m, m < 7 → 0.1 * 1 < |smoothIter (0 + 1) 0 m - (0 + 1)|) ∧
      (|smoothIter (0 - 1) 0 28 - (0 - 1)| ≤ 0.1 * 1 ∧
       ∀ m, m < 28 → 0.1 * 1 < |smoothIter (0 - 1) 0 m - (0 - 1)|) ∧
      (7 : ℕ) < 28) ∧
     ((|altSmoothIter (0 + 1) 0 28 - (0 + 1)| ≤ 0.1 * 1 ∧
       ∀ m, m < 28 → 0.1 * 1 < |altSmoothIter (0 + 1) 0 m - (0 + 1)|) ∧
      (|altSmoothIter (0 - 1) 0 76 - (0 - 1)| ≤ 0.1 * 1 ∧
       ∀ m, m < 76 → 0.1 * 1 < |altSmoothIter (0 - 1) 0 m - (0 - 1)|) ∧
      (28 : ℕ) < 76)) :=
  ⟨by norm_num, attack_faster_than_release 0 1 (by norm_num)⟩

/-- C8 counterexample: startWebRecording performs no active-session
check, so two consecutive starts leave two acquired streams and two
scheduled update loops live at once, contradicting the exclusivity
claim. -/
theorem start_exclusivity_counterexample :
    (startWebRecording (startWebRecording initialSession)).liveStreams = 2 ∧
    (startWebRecording (startWebRecording initialSession)).liveLoops = 2 ∧
    ¬ (startWebRecording (startWebRecording initialSession)).liveStreams ≤ 1 := by
  refine ⟨rfl, rfl, ?_⟩
  show ¬ (2 : ℕ) ≤ 1
  norm_num

/-- C8 amended: starting while a capture session is active is neither a
no-op nor preceded by a stop; each call to startWebRecording
unconditionally acquires one more stream and starts one more update
loop, silently duplicating resource acquisition, and a subsequent stop
releases only the most recently acquired pair. -/
theorem start_acquires_unconditionally (s : SessionRes) :
    (startWebRecording s).liveStreams = s.liveStreams + 1 ∧
    (startWebRecording s).liveLoops = s.liveLoops + 1 ∧
    (startWebRecording s).isRecording = true ∧
    (stopWebRecording (startWebRecording (startWebRecording initialSession))).liveStreams = 1 ∧
    (stopWebRecording (startWebRecording (startWebRecording initialSession))).liveLoops = 1 := by
  refine ⟨rfl, rfl, rfl, ?_, ?_⟩ <;>
    simp [stopWebRecording, startWebRecording, initialSession]

/-- C9: stop called twice consecutively does not fail (every release in
the code is behind a null check or a swallowing try/catch, and the
model of a stop on empty refs releases nothing); the second stop is the
identity on the stopped state, and the published level and smoothing
state are exactly 0 afterwards, on both the web and the native path. -/
theorem stop_idempotent (s : SessionRes) (t : NativeRes) :
    stopWebRecording (stopWebRecording s) = stopWebRecording s ∧
    (stopWebRecording (stopWebRecording s)).audioLevel = 0 ∧
    (stopWebRecording (stopWebRecording s)).smoothedLevel = 0 ∧
    stopNativeRecording (stopNativeRecording t) = stopNativeRecording t ∧
    (stopNativeRecording (stopNativeRecording t)).audioLevel = 0 ∧
    (stopNativeRecording (stopNativeRecording t)).smoothedLevel = 0 := by
  refine ⟨?_, rfl, rfl, ?_, rfl, rfl⟩ <;>
    simp [stopWebRecording, stopNativeRecording]

/-- C10: when a smoothing update lands below the snap-to-zero threshold
only the published level is forced to 0: smoothedLevelRef keeps the
sub-threshold value, so the next update interpolates from it and a
published 0 does not mean the internal state is 0.  Holds for the web
pipeline (threshold 0.02) and the variant pipeline (threshold 0.01). -/
theorem snap_to_zero_internal_state (raw : ℝ) (s : WebState)
    (h : smoothStep (clampedLevel raw s.noiseFloor) s.smoothedLevel < 0.02)
    (h2 : altSmoothStep (altClampedLevel raw s.noiseFloor) s.smoothedLevel < 0.01) :
    ((updateLevel false raw s).audioLevel = 0 ∧
     (updateLevel false raw s).smoothedLevel
       = smoothStep (clampedLevel raw s.noiseFloor) s.smoothedLevel) ∧
    ((updateLevelAlt false raw s).audioLevel = 0 ∧
     (updateLevelAlt false raw s).smoothedLevel
       = altSmoothStep (altClampedLevel raw s.noiseFloor) s.smoothedLevel) := by
  constructor
  · unfold updateLevel
    simp [h]
  · unfold updateLevelAlt
    simp [h2]

theorem snap_to_zero_internal_state_witness :
    (smoothStep (clampedLevel 0 (0.05 : ℝ)) 0.01 < 0.02 ∧
     altSmoothStep (altClampedLevel 0 (0.05 : ℝ)) 0.01 < 0.01) ∧
    (((updateLevel false 0 ⟨[], 0.05, 0.01, 0⟩).audioLevel = 0 ∧
      (updateLevel false 0 ⟨[], 0.05, 0.01, 0⟩).smoothedLevel
        = smoothStep (clampedLevel 0 (0.05 : ℝ)) 0.01) ∧
     ((updateLevelAlt false 0 ⟨[], 0.05, 0.01, 0⟩).audioLevel = 0 ∧
      (updateLevelAlt false 0 ⟨[], 0.05, 0.01, 0⟩).smoothedLevel
        = altSmoothStep (altClampedLevel 0 (0.05 : ℝ)) 0.01)) := by
  have hg : gatedLevel 0 (0.05 : ℝ) = 0 := by
    unfold gatedLevel
    rw [max_eq_left (by norm_num : (0 : ℝ) - 0.05 ≤ 0), zero_div]
  have hcl : clampedLevel 0 (0.05 : ℝ) = 0 := by
    unfold clampedLevel curvedLevel
    rw [hg, Real.zero_rpow (by norm_num), zero_mul]
    exact min_eq_right zero_le_one
  have hacl : altClampedLevel 0 (0.05 : ℝ) = 0 := by
    unfold altClampedLevel altCurvedLevel
    rw [hg, Real.zero_rpow (by norm_num), zero_mul]
    exact min_eq_right zero_le_one
  have h1 : smoothStep (clampedLevel 0 (0.05 : ℝ)) 0.01 < 0.02 := by
    rw [hcl]
    unfold smoothStep
    rw [if_neg (by norm_num)]
    norm_num
  have h2 : altSmoothStep (altClampedLevel 0 (0.05 : ℝ)) 0.01 < 0.01 := by
    rw [hacl]
    unfold altSmoothStep
    rw [if_neg (by norm_num)]
    norm_num
  exact ⟨⟨h1, h2⟩, snap_to_zero_internal_state 0 ⟨[], 0.05, 0.01, 0⟩ h1 h2⟩

end VoiceOrb
